import Mathlib

/-!
Verification of the credential detection / redaction pipeline and the role
registry of the `qa-director` repository.

Strings of the TypeScript source are embedded as `List Char`; the JavaScript
string operations used by the code (`toLowerCase`, `toUpperCase`, `includes`,
template concatenation) are modelled character-wise, restricted to the ASCII
behaviour that the detection patterns and generated names exercise.
-/

set_option autoImplicit false
set_option maxRecDepth 40000

namespace QADirector

/-- The type tag of `EnvVar` (`"email" | "password"` in `src/types`). -/
inductive EnvVarType where
  | email
  | password
deriving DecidableEq

/-- Modelled from the spec: `EnvironmentVariable` / the `EnvVar` shape used by
`detectEnvVars` (`{ name, value, type }`); the declaring `src/types/index.ts`
file is not present in the sources. -/
structure EnvVar where
  name : List Char
  value : List Char
  type : EnvVarType
deriving DecidableEq

/-- JS `String.prototype.toLowerCase`, ASCII fragment. -/
def lowerStr (s : List Char) : List Char := s.map Char.toLower

/-- JS `String.prototype.toUpperCase`, ASCII fragment. -/
def upperStr (s : List Char) : List Char := s.map Char.toUpper

/-- JS `hay.includes(needle)`: substring containment. -/
def includesStr (hay needle : List Char) : Bool := decide (needle <:+: hay)

/-- The test `value.toLowerCase().includes("admin")`, the admin-override test of
`generateEnvVarName`. -/
def containsAdmin (s : List Char) : Bool := includesStr (lowerStr s) "admin".data

/-- The fixed placeholder list of `isCommonTestData`. -/
def commonTestData : List (List Char) :=
  ["test".data, "demo".data, "sample".data, "example".data, "placeholder".data,
   "lorem".data, "ipsum".data, "john".data, "jane".data, "doe".data,
   "admin".data, "user".data, "guest".data, "test123".data, "password123".data]

/-- Predicate `isCommonTestData` of `env-vars.ts`: the lowercased value contains one of
the placeholder tokens. -/
def isCommonTestData (value : List Char) : Bool :=
  commonTestData.any (fun d => includesStr (lowerStr value) d)

/-- ASCII letter, the `[a-zA-Z]` class. -/
def isAsciiLetter (c : Char) : Bool :=
  ('a' ≤ c && c ≤ 'z') || ('A' ≤ c && c ≤ 'Z')

/-- The `[a-zA-Z0-9]` class. -/
def isAsciiAlnum (c : Char) : Bool :=
  isAsciiLetter c || ('0' ≤ c && c ≤ '9')

/-- JS line terminators, excluded by `.` in a regex without the `s` flag. -/
def isLineTerm (c : Char) : Bool :=
  c = '\n' || c = '\r' || c = '\u2028' || c = '\u2029'

/-- Predicate `isLikelySelector` of `env-vars.ts`: each regex of `selectorPatterns`,
translated clause by clause. -/
def isLikelySelector (value : List Char) : Bool :=
  -- /^#[a-zA-Z]/
  (match value with
   | '#' :: c :: _ => isAsciiLetter c
   | _ => false) ||
  -- /^\.[a-zA-Z]/
  (match value with
   | '.' :: c :: _ => isAsciiLetter c
   | _ => false) ||
  -- /^\[.*\]$/  (`.` does not cross line terminators)
  (match value with
   | '[' :: rest =>
     match rest.reverse with
     | ']' :: mid => mid.all (fun c => !isLineTerm c)
     | _ => false
   | _ => false) ||
  -- /^[a-zA-Z][a-zA-Z0-9]*$/
  (match value with
   | c :: rest => isAsciiLetter c && rest.all isAsciiAlnum
   | [] => false) ||
  -- /data-testid/i, /data-cy/i, /class=/i, /id=/i
  includesStr (lowerStr value) "data-testid".data ||
  includesStr (lowerStr value) "data-cy".data ||
  includesStr (lowerStr value) "class=".data ||
  includesStr (lowerStr value) "id=".data

/-- Function `generateEnvVarName` of `env-vars.ts`. -/
def generateEnvVarName (value : List Char) (type : EnvVarType)
    (fieldContext : Option (List Char)) (roleName : Option (List Char)) : List Char :=
  let rolePrefix := match roleName with
    | some r => upperStr r
    | none => "USER".data
  let adminContext :=
    (match fieldContext with
     | some fc => containsAdmin fc
     | none => false) || containsAdmin value
  match type with
  | .email =>
    if adminContext then "QA_ADMIN_EMAIL".data
    else "QA_".data ++ rolePrefix ++ "_EMAIL".data
  | .password =>
    if adminContext then "QA_ADMIN_PASSWORD".data
    else "QA_".data ++ rolePrefix ++ "_PASSWORD".data

/-- The loop body of `deduplicateEnvVars`: `seenNames` / `seenValues` are the
two `Set<string>` accumulators. -/
def dedupAux (seenNames seenValues : List (List Char)) : List EnvVar → List EnvVar
  | [] => []
  | v :: rest =>
    if v.name ∈ seenNames ∨ v.value ∈ seenValues then
      dedupAux seenNames seenValues rest
    else
      v :: dedupAux (v.name :: seenNames) (v.value :: seenValues) rest

/-- Function `deduplicateEnvVars` of `env-vars.ts`. -/
def deduplicateEnvVars (envVars : List EnvVar) : List EnvVar :=
  dedupAux [] [] envVars

/-- The de-duplication rule exactly as the spec words it: an entry is kept iff
neither its name nor its value occurs in an earlier kept entry (`kept` is the
list of entries kept so far). Written for comparison with the source-derived
`deduplicateEnvVars`. -/
def dedupSpecAux (kept : List EnvVar) : List EnvVar → List EnvVar
  | [] => []
  | v :: rest =>
    if v.name ∈ kept.map EnvVar.name ∨ v.value ∈ kept.map EnvVar.value then
      dedupSpecAux kept rest
    else
      v :: dedupSpecAux (kept ++ [v]) rest

/-- Spec-side entry point of the first-occurrence-wins rule. -/
def dedupFirstWins (envVars : List EnvVar) : List EnvVar := dedupSpecAux [] envVars

/-! ### The fill-pattern scanner of `detectEnvVars`

The two `fillPatterns` regexes are embedded as a deterministic scanner.
Both regexes have the shape

`\.getByRole\(['"\x60]textbox['"\x60],\s*\x7b\s*name:\s*['"\x60](NAME)['"\x60]\s*\x7d\)[\s\S]*?\.fill\(['"\x60]([^'"\x60]+)['"\x60]\)`

where `NAME` is `[^'"\x60]*KEYWORD[^'"\x60]*`.  Because the name and value
groups exclude the three quote characters, every quantifier in the pattern is
determined by its first possible end: the greedy runs stop at the first quote
character, and the lazy `[\s\S]*?` selects the earliest following `.fill`
literal that completes.  The scanner below implements exactly that, which is
the `RegExp.exec` behaviour, and the repeated `exec` loop with `lastIndex`
yields leftmost non-overlapping matches, i.e. restarting after each match. -/

/-- The `['"\x60]` quote class of the fill patterns. -/
def isQuoteChar (c : Char) : Bool := c = '\'' || c = '"' || c = '\x60'

/-- JS `\s` class (restricted to the members that occur in recorded
scripts). -/
def isSpaceChar (c : Char) : Bool :=
  c = ' ' || c = '\t' || c = '\n' || c = '\r' || c = '\x0b' || c = '\x0c' ||
  c = '\u00a0' || c = '\ufeff' || c = '\u2028' || c = '\u2029'

/-- Matches a literal piece of the pattern, returning the remaining text. -/
def stripLit (lit l : List Char) : Option (List Char) :=
  if lit.isPrefixOf l then some (l.drop lit.length) else none

/-- Matches one character of the quote class. -/
def parseQuote : List Char → Option (List Char)
  | c :: rest => if isQuoteChar c then some rest else none
  | [] => none

/-- Matches the quoted field name: the (necessarily maximal) run of non-quote
characters, terminated by a closing quote-class character. -/
def parseFieldName (l : List Char) : Option (List Char × List Char) :=
  match l.dropWhile (fun c => !isQuoteChar c) with
  | _ :: rest => some (l.takeWhile (fun c => !isQuoteChar c), rest)
  | [] => none

/-- Keyword alternation `(?:[eE]mail|[uU]sername|[uU]ser)` of the email/username
pattern, as a substring test on the field name. -/
def emailFieldKeyword (nm : List Char) : Bool :=
  includesStr nm "email".data || includesStr nm "Email".data ||
  includesStr nm "username".data || includesStr nm "Username".data ||
  includesStr nm "user".data || includesStr nm "User".data

/-- Keyword alternation `[pP]assword` of the password pattern. -/
def passwordFieldKeyword (nm : List Char) : Bool :=
  includesStr nm "password".data || includesStr nm "Password".data

/-- Matches the locator part of a fill pattern at the head of the text,
returning the field name (capture group 1) and the remaining text. -/
def parseLocator (kw : List Char → Bool) (l : List Char) : Option (List Char × List Char) := do
  let l ← stripLit ".getByRole(".data l
  let l ← parseQuote l
  let l ← stripLit "textbox".data l
  let l ← parseQuote l
  let l ← stripLit ",".data l
  let l := l.dropWhile isSpaceChar
  let l ← stripLit "\x7b".data l
  let l := l.dropWhile isSpaceChar
  let l ← stripLit "name:".data l
  let l := l.dropWhile isSpaceChar
  let l ← parseQuote l
  let (nm, l) ← parseFieldName l
  if kw nm then
    let l := l.dropWhile isSpaceChar
    (stripLit "\x7d)".data l).map (fun rest => (nm, rest))
  else
    none

/-- Matches `\.fill\(['"\x60]([^'"\x60]+)['"\x60]\)` at the head of the text,
returning the filled value (capture group 2) and the remaining text. -/
def parseFill (l : List Char) : Option (List Char × List Char) := do
  let l ← stripLit ".fill(".data l
  let l ← parseQuote l
  let v := l.takeWhile (fun c => !isQuoteChar c)
  if v.isEmpty then
    none
  else
    match l.dropWhile (fun c => !isQuoteChar c) with
    | _ :: rest => (stripLit ")".data rest).map (fun r => (v, r))
    | [] => none

/-- The lazy `[\s\S]*?` bridge: the earliest position at or after the current
one where the fill part matches. -/
def findFill : List Char → Option (List Char × List Char)
  | [] => none
  | c :: rest =>
    match parseFill (c :: rest) with
    | some r => some r
    | none => findFill rest

/-- One `while ((match = pattern.exec(code)) !== null)` loop: leftmost
non-overlapping matches, each reported as `(fieldContext, value)` (capture
groups 1 and 2).  The fuel argument bounds the scan; every step consumes at
least one character, so fuel equal to the text length reproduces the
JavaScript behaviour. -/
def scanAux (kw : List Char → Bool) : Nat → List Char → List (List Char × List Char)
  | 0, _ => []
  | _ + 1, [] => []
  | fuel + 1, c :: rest =>
    match parseLocator kw (c :: rest) with
    | some (nm, afterLoc) =>
      match findFill afterLoc with
      | some (v, afterFill) => (nm, v) :: scanAux kw fuel afterFill
      | none => scanAux kw fuel rest
    | none => scanAux kw fuel rest

/-- All matches of one fill pattern over the text. -/
def execPattern (kw : List Char → Bool) (code : List Char) : List (List Char × List Char) :=
  scanAux kw code.length code

/-- One row of the match stream: capture groups and the pattern's type tag. -/
structure FillMatch where
  fieldContext : List Char
  value : List Char
  type : EnvVarType
deriving DecidableEq

/-- Matches of the email/username pattern, tagged `email`. -/
def emailMatches (code : List Char) : List FillMatch :=
  (execPattern emailFieldKeyword code).map (fun p => ⟨p.1, p.2, .email⟩)

/-- Matches of the password pattern, tagged `password`. -/
def passwordMatches (code : List Char) : List FillMatch :=
  (execPattern passwordFieldKeyword code).map (fun p => ⟨p.1, p.2, .password⟩)

/-- The full match stream: `fillPatterns.forEach` exhausts the email pattern
over the whole text before running the password pattern. -/
def allMatches (code : List Char) : List FillMatch :=
  emailMatches code ++ passwordMatches code

/-- The loop body of `detectEnvVars` on one match: skip selector-like and
common-test-data values, otherwise name the value and build the `EnvVar`. -/
def matchToVar (roleName : Option (List Char)) (m : FillMatch) : Option EnvVar :=
  if isLikelySelector m.value || isCommonTestData m.value then none
  else some ⟨generateEnvVarName m.value m.type (some m.fieldContext) roleName, m.value, m.type⟩

/-- Function `detectEnvVars` of `env-vars.ts`: filter the match stream through
the selector / common-test-data heuristics, name each surviving value, and
de-duplicate. -/
def detectEnvVars (playwrightCode : List Char) (roleName : Option (List Char)) : List EnvVar :=
  deduplicateEnvVars ((allMatches playwrightCode).filterMap (matchToVar roleName))

/-! ### The redaction rewriter `replaceWithEnvVars` -/

/-- One match attempt of the replacement regex ``(['"\x60])value\1`` at the
head of the text: an opening quote-class character, the literal value
(`escapeRegex` makes the JavaScript pattern match it literally), and a closing
quote equal (backreference `\1`) to the opening one.  On success returns the
text after the match. -/
def matchQuoted (v : List Char) : List Char → Option (List Char)
  | [] => none
  | c :: rest =>
    if isQuoteChar c then
      if v.isPrefixOf rest then
        match rest.drop v.length with
        | c2 :: rest2 => if c2 = c then some rest2 else none
        | [] => none
      else none
    else none

/-- Global left-to-right replacement of `matchQuoted` occurrences: the
semantics of `String.prototype.replace` with a `g`-flagged regex.  Fuel as in
`scanAux`. -/
def replaceQuoted (v repl : List Char) : Nat → List Char → List Char
  | 0, l => l
  | _ + 1, [] => []
  | fuel + 1, c :: rest =>
    match matchQuoted v (c :: rest) with
    | some after => repl ++ replaceQuoted v repl fuel after
    | none => c :: replaceQuoted v repl fuel rest

/-- One iteration of the `envVars.forEach` loop of `replaceWithEnvVars`:
replace every quoted occurrence of the value by `process.env.` followed by the
variable's name. -/
def replaceVar (code : List Char) (envVar : EnvVar) : List Char :=
  replaceQuoted envVar.value ("process.env.".data ++ envVar.name) code.length code

/-- Function `replaceWithEnvVars` of `env-vars.ts`. -/
def replaceWithEnvVars (code : List Char) (envVars : List EnvVar) : List Char :=
  envVars.foldl replaceVar code

/-- Number of positions of the text where the quoted pattern for `v` matches
(overlapping positions each counted). -/
def countQuotedOcc (v : List Char) : List Char → Nat
  | [] => 0
  | c :: rest => (if (matchQuoted v (c :: rest)).isSome then 1 else 0) + countQuotedOcc v rest

/-- Whether the quoted pattern for `v` matches anywhere in the text. -/
def hasQuotedOcc (v : List Char) : List Char → Bool
  | [] => false
  | c :: rest => (matchQuoted v (c :: rest)).isSome || hasQuotedOcc v rest

/-- Number of positions of the text where `p` occurs as a substring. -/
def countOcc (p : List Char) : List Char → Nat
  | [] => 0
  | c :: rest => (if p.isPrefixOf (c :: rest) then 1 else 0) + countOcc p rest

/-! ### The role registry of `config.ts` -/

/-- Modelled from the spec: the `Role` record of the missing
`src/types/index.ts` (`name` is the unique key; `storagePath` the credential
storage-state path; `testMatch`, `envVars`, `folder` optional). -/
structure Role where
  name : List Char
  storagePath : List Char
  testMatch : Option (List (List Char))
  envVars : Option (List (List Char))
  folder : Option (List Char)
deriving DecidableEq

/-- Modelled from the spec: the `githubActions` settings group of the
configuration document. -/
structure GithubActionsSettings where
  enabled : Bool
  path : List Char
deriving DecidableEq

/-- Modelled from the spec: the `setup` settings group of the configuration
document. -/
structure SetupSettings where
  path : List Char
  enabled : Bool
  projectName : Option (List Char)
deriving DecidableEq

/-- Modelled from the spec: `QADirectorConfig`, the aggregate configuration
document of the missing `src/types/index.ts`. -/
structure QADirectorConfig where
  baseURL : List Char
  testDir : List Char
  roles : List Role
  authDir : List Char
  githubActions : GithubActionsSettings
  setup : SetupSettings
  envDir : List Char
  playwrightConfig : List Char
deriving DecidableEq

/-- Message of the `Error` thrown by `addRole` / `removeRole` when `loadConfig`
returns `null`. -/
def configNotFoundMsg : List Char :=
  "No qa-director.config.ts found. Run \x60qa-director init\x60 first.".data

/-- Function `addRole` of `config.ts`.  A `loadConfig` result of `null` is the
`none` argument; an `.ok` result is the configuration handed to `saveConfig`,
and an `.error` result is the thrown `Error` — in which case nothing is
saved. -/
def addRole (loaded : Option QADirectorConfig) (role : Role) :
    Except (List Char) QADirectorConfig :=
  match loaded with
  | none => .error configNotFoundMsg
  | some config =>
    .ok { config with
          roles := config.roles.filter (fun r => decide (r.name ≠ role.name)) ++ [role] }

/-- Function `removeRole` of `config.ts`, modelled like `addRole`. -/
def removeRole (loaded : Option QADirectorConfig) (roleName : List Char) :
    Except (List Char) QADirectorConfig :=
  match loaded with
  | none => .error configNotFoundMsg
  | some config =>
    .ok { config with
          roles := config.roles.filter (fun r => decide (r.name ≠ roleName)) }

/-! ### Concrete inputs used in the claim instances -/

/-- The transcript of the spec's end-to-end scenario: an `Email` fill of
`alice@example.com` followed by a `Password` fill of `s3cr3t!`. -/
def transcript1 : List Char :=
  "page.getByRole(\x27textbox\x27, \x7b name: \x27Email\x27 \x7d).fill(\x27alice@example.com\x27);\npage.getByRole(\x27textbox\x27, \x7b name: \x27Password\x27 \x7d).fill(\x27s3cr3t!\x27);".data

/-- What `transcript1` becomes under `replaceWithEnvVars` with the variables
that `detectEnvVars` actually finds in it. -/
def transcript1Redacted : List Char :=
  "page.getByRole(\x27textbox\x27, \x7b name: \x27Email\x27 \x7d).fill(\x27alice@example.com\x27);\npage.getByRole(\x27textbox\x27, \x7b name: \x27Password\x27 \x7d).fill(process.env.QA_USER_PASSWORD);".data

/-- A password fill statement (textually first within `transcript2`). -/
def passwordStmt : List Char :=
  "page.getByRole(\x27textbox\x27, \x7b name: \x27Password\x27 \x7d).fill(\x27s3cr3t!\x27);\n".data

/-- An email fill statement (textually second within `transcript2`). -/
def emailStmt : List Char :=
  "page.getByRole(\x27textbox\x27, \x7b name: \x27Login Email\x27 \x7d).fill(\x27alice@corp.io\x27);".data

/-- A transcript in which the password field-and-fill occurs before the
email one. -/
def transcript2 : List Char := passwordStmt ++ emailStmt

/-- A one-fill transcript whose field name (`Email`) lacks `admin`. -/
def plainEmailStmt : List Char :=
  "page.getByRole(\x27textbox\x27, \x7b name: \x27Email\x27 \x7d).fill(\x27alice@corp.io\x27);".data

/-- A one-fill transcript whose field name is `Admin Email`. -/
def adminFieldStmt : List Char :=
  "page.getByRole(\x27textbox\x27, \x7b name: \x27Admin Email\x27 \x7d).fill(\x27alice@corp.io\x27);".data

/-- The environment variable of the redaction counterexample: value `x`. -/
def xVar : EnvVar := ⟨"QA_USER_PASSWORD".data, "x".data, .password⟩

/-- Text `'x'x'`: two quote-delimited occurrences of `x` sharing the middle
quote. -/
def overlapText : List Char := "\x27x\x27x\x27".data

/-- The variable that `detectEnvVars` derives from `plainEmailStmt` under
role `admin`, and from `adminFieldStmt` under role `user`. -/
def adminVar : EnvVar := ⟨"QA_ADMIN_EMAIL".data, "alice@corp.io".data, .email⟩

/-- A sample role named `user`. -/
def roleUser1 : Role := ⟨"user".data, ".auth/user.json".data, none, none, none⟩

/-- The same role name as `roleUser1` with a different storage path. -/
def roleUser2 : Role := ⟨"user".data, ".auth/user2.json".data, none, none, none⟩

/-- A sample role named `admin`. -/
def roleAdmin : Role := ⟨"admin".data, ".auth/admin.json".data, none, none, none⟩

/-- A sample configuration document whose only role is `admin`. -/
def sampleConfig : QADirectorConfig :=
  ⟨"http://localhost:3000".data, "tests".data, [roleAdmin], ".auth".data,
   ⟨true, ".github/workflows/e2e.yml".data⟩,
   ⟨"tests/auth.setup.ts".data, true, none⟩,
   ".env.qa".data, "playwright.config.ts".data⟩

/-! ### Helper lemmas -/

theorem filter_ne_filter_eq (l : List Role) (n : List Char) :
    (l.filter (fun r => decide (r.name ≠ n))).filter (fun r => decide (r.name = n)) = [] := by
  induction l with
  | nil => rfl
  | cons r rest ih => by_cases h : r.name = n <;> simp [List.filter_cons, h, ih]

theorem filter_ne_of_filter_ne (l : List Role) (n : List Char) :
    (l.filter (fun r => decide (r.name ≠ n))).filter (fun r => decide (r.name ≠ n)) =
      l.filter (fun r => decide (r.name ≠ n)) :=
  List.filter_eq_self.mpr (fun _ hr => (List.mem_filter.mp hr).2)

/-! ### Claim theorems: the role registry -/

/-- C5: `addRole` is an upsert: the saved configuration holds exactly one role
with the added name, namely the supplied one, and a second add of the same
name replaces that entry (leaving the length unchanged) instead of appending a
duplicate. -/
theorem addRole_upsert (cfg : QADirectorConfig) (role : Role) (c : QADirectorConfig)
    (h : addRole (some cfg) role = .ok c) :
    c.roles.filter (fun r => decide (r.name = role.name)) = [role] ∧
    ∀ (role2 : Role) (c2 : QADirectorConfig), role2.name = role.name →
      addRole (some c) role2 = .ok c2 →
      c2.roles.filter (fun r => decide (r.name = role2.name)) = [role2] ∧
      c2.roles.length = c.roles.length := by
  have hc : c = { cfg with
      roles := cfg.roles.filter (fun r => decide (r.name ≠ role.name)) ++ [role] } := by
    have := h.symm
    simpa [addRole] using this
  subst hc
  refine ⟨?_, ?_⟩
  · simp [List.filter_append, filter_ne_filter_eq, List.filter_cons]
  · intro role2 c2 hname h2
    have hc2 : c2 = { cfg with
        roles := ((cfg.roles.filter (fun r => decide (r.name ≠ role.name)) ++ [role]).filter
            (fun r => decide (r.name ≠ role2.name))) ++ [role2] } := by
      have := h2.symm
      simpa [addRole] using this
    subst hc2
    simp [List.filter_append, List.filter_cons, filter_ne_filter_eq,
      filter_ne_of_filter_ne, hname]

/-- C5 witness: adding `user` twice with different storage paths onto the
sample configuration leaves exactly one `user` role, the second one. -/
theorem addRole_upsert_witness :
    ∃ c c2, addRole (some sampleConfig) roleUser1 = .ok c ∧
      addRole (some c) roleUser2 = .ok c2 ∧
      c2.roles.filter (fun r => decide (r.name = roleUser2.name)) = [roleUser2] ∧
      c2.roles.length = c.roles.length := by
  refine ⟨_, _, rfl, rfl, ?_⟩
  exact (addRole_upsert sampleConfig roleUser1 _ rfl).2 roleUser2 _ rfl rfl

/-- C8: removing a role name absent from the configuration is a silent no-op:
the operation succeeds (no error) and returns the configuration unchanged. -/
theorem removeRole_absent_noop (cfg : QADirectorConfig) (n : List Char)
    (h : ∀ r ∈ cfg.roles, r.name ≠ n) :
    removeRole (some cfg) n = .ok cfg := by
  have heq : cfg.roles.filter (fun r => decide (r.name ≠ n)) = cfg.roles :=
    List.filter_eq_self.mpr (fun r hr => by simpa using h r hr)
  show Except.ok { cfg with roles := cfg.roles.filter (fun r => decide (r.name ≠ n)) } =
    Except.ok cfg
  rw [heq]

/-- C8 witness: removing the absent name `ghost` from the sample configuration
returns it unchanged. -/
theorem removeRole_absent_noop_witness :
    removeRole (some sampleConfig) "ghost".data = .ok sampleConfig :=
  removeRole_absent_noop sampleConfig "ghost".data (by decide)

/-- C9: with no configuration document (`loadConfig` returned `null`), both
`addRole` and `removeRole` surface the configuration-not-found error to the
caller; no configuration is produced for saving. -/
theorem roleOps_missing_config (role : Role) (n : List Char) :
    addRole none role = .error configNotFoundMsg ∧
    removeRole none n = .error configNotFoundMsg :=
  ⟨rfl, rfl⟩

/-! ### Claim theorems: the namer -/

/-- C6: naming is deterministic: with role `checkout` and kind email, a field
context and value free of `admin` always yield `QA_CHECKOUT_EMAIL`; and an
`admin` occurrence in the field context or the value forces
`QA_ADMIN_EMAIL` / `QA_ADMIN_PASSWORD` whatever the role. -/
theorem generateEnvVarName_deterministic :
    (∀ value fc, containsAdmin fc = false → containsAdmin value = false →
      generateEnvVarName value .email (some fc) (some "checkout".data) =
        "QA_CHECKOUT_EMAIL".data) ∧
    (∀ value fc (roleName : Option (List Char)),
      containsAdmin fc = true ∨ containsAdmin value = true →
      generateEnvVarName value .email (some fc) roleName = "QA_ADMIN_EMAIL".data ∧
      generateEnvVarName value .password (some fc) roleName = "QA_ADMIN_PASSWORD".data) := by
  constructor
  · intro value fc h1 h2
    simp [generateEnvVarName, h1, h2]
    decide
  · intro value fc roleName h
    rcases h with h | h <;> simp [generateEnvVarName, h]

/-- C6 witness: concrete instances of both halves. -/
theorem generateEnvVarName_deterministic_witness :
    generateEnvVarName "alice@corp.io".data .email (some "Login".data)
      (some "checkout".data) = "QA_CHECKOUT_EMAIL".data ∧
    generateEnvVarName "s3cr3t!".data .password (some "Admin Password".data)
      (some "checkout".data) = "QA_ADMIN_PASSWORD".data :=
  ⟨generateEnvVarName_deterministic.1 "alice@corp.io".data "Login".data
      (by decide) (by decide),
   (generateEnvVarName_deterministic.2 "s3cr3t!".data "Admin Password".data
      (some "checkout".data) (Or.inl (by decide))).2⟩

/-! ### Claim theorems: de-duplication -/

theorem dedupAux_eq_spec (l : List EnvVar) :
    ∀ (seenNames seenValues : List (List Char)) (kept : List EnvVar),
      (∀ x, x ∈ seenNames ↔ x ∈ kept.map EnvVar.name) →
      (∀ x, x ∈ seenValues ↔ x ∈ kept.map EnvVar.value) →
      dedupAux seenNames seenValues l = dedupSpecAux kept l := by
  induction l with
  | nil => intro _ _ _ _ _; rfl
  | cons v rest ih =>
    intro seenNames seenValues kept hN hV
    have hcond : (v.name ∈ seenNames ∨ v.value ∈ seenValues) ↔
        (v.name ∈ kept.map EnvVar.name ∨ v.value ∈ kept.map EnvVar.value) :=
      or_congr (hN v.name) (hV v.value)
    by_cases h : v.name ∈ kept.map EnvVar.name ∨ v.value ∈ kept.map EnvVar.value
    · rw [dedupAux, dedupSpecAux, if_pos (hcond.mpr h), if_pos h]
      exact ih seenNames seenValues kept hN hV
    · rw [dedupAux, dedupSpecAux, if_neg (fun hc => h (hcond.mp hc)), if_neg h]
      refine congrArg (v :: ·) (ih _ _ (kept ++ [v]) ?_ ?_) <;>
        intro x <;>
        simp [List.mem_cons, hN x, hV x, or_comm]

/-- C3: `deduplicateEnvVars` implements exactly the first-occurrence-wins
rule: an entry is kept iff neither its name nor its value occurs in an
earlier kept entry, so an entry sharing only a name or only a value with an
earlier kept entry is dropped. -/
theorem deduplicateEnvVars_first_wins (l : List EnvVar) :
    deduplicateEnvVars l = dedupFirstWins l :=
  dedupAux_eq_spec l [] [] [] (by simp) (by simp)

theorem dedupAux_idem (l : List EnvVar) :
    ∀ seenNames seenValues,
      dedupAux seenNames seenValues (dedupAux seenNames seenValues l) =
        dedupAux seenNames seenValues l := by
  induction l with
  | nil => intro _ _; rfl
  | cons v rest ih =>
    intro seenNames seenValues
    by_cases h : v.name ∈ seenNames ∨ v.value ∈ seenValues
    · rw [dedupAux, if_pos h]
      exact ih seenNames seenValues
    · rw [dedupAux, if_neg h, dedupAux, if_neg h]
      exact congrArg (v :: ·) (ih _ _)

/-- C7: de-duplication is idempotent: a second pass over an already
de-duplicated list returns it unchanged. -/
theorem deduplicateEnvVars_idempotent (l : List EnvVar) :
    deduplicateEnvVars (deduplicateEnvVars l) = deduplicateEnvVars l :=
  dedupAux_idem l [] []

/-! ### Claim theorems: detection -/

/-- C1 counterexample: on the spec's end-to-end transcript, `detectEnvVars`
does not return two credentials. -/
theorem detect_transcript1_not_two :
    (detectEnvVars transcript1 (some "user".data)).length ≠ 2 := by decide

/-- C1 (amended): on the end-to-end transcript only the password credential
survives — `alice@example.com` is discarded by `isCommonTestData` because it
contains the placeholder token `example` — and `replaceWithEnvVars` with the
detected variables replaces the quoted password literal with
`process.env.QA_USER_PASSWORD`, leaving the email literal untouched. -/
theorem detect_transcript1_password_only :
    isCommonTestData "alice@example.com".data = true ∧
    detectEnvVars transcript1 (some "user".data) =
      [⟨"QA_USER_PASSWORD".data, "s3cr3t!".data, .password⟩] ∧
    replaceWithEnvVars transcript1 (detectEnvVars transcript1 (some "user".data)) =
      transcript1Redacted := by decide

/-- C2 counterexample: in `transcript2` the password field-and-fill occurs
textually before the email one (the two statements are matched in their own
segments), yet the detector emits the email credential first. -/
theorem detect_transcript2_order_swapped :
    passwordMatches passwordStmt = [⟨"Password".data, "s3cr3t!".data, .password⟩] ∧
    emailMatches passwordStmt = [] ∧
    emailMatches emailStmt = [⟨"Login Email".data, "alice@corp.io".data, .email⟩] ∧
    passwordMatches emailStmt = [] ∧
    detectEnvVars transcript2 (some "user".data) =
      [⟨"QA_USER_EMAIL".data, "alice@corp.io".data, .email⟩,
       ⟨"QA_USER_PASSWORD".data, "s3cr3t!".data, .password⟩] := by decide

theorem dedupAux_sublist (l : List EnvVar) :
    ∀ seenNames seenValues, List.Sublist (dedupAux seenNames seenValues l) l := by
  induction l with
  | nil => intro _ _; exact List.Sublist.refl []
  | cons v rest ih =>
    intro seenNames seenValues
    by_cases h : v.name ∈ seenNames ∨ v.value ∈ seenValues
    · rw [dedupAux, if_pos h]; exact (ih seenNames seenValues).cons v
    · rw [dedupAux, if_neg h]; exact (ih _ _).cons₂ v

theorem matchToVar_eq_some {roleName : Option (List Char)} {m : FillMatch} {v : EnvVar}
    (h : matchToVar roleName m = some v) :
    v.type = m.type ∧ v.value = m.value ∧
    v.name = generateEnvVarName m.value m.type (some m.fieldContext) roleName ∧
    isLikelySelector m.value = false ∧ isCommonTestData m.value = false := by
  unfold matchToVar at h
  by_cases hg : (isLikelySelector m.value || isCommonTestData m.value) = true
  · rw [if_pos hg] at h; exact absurd h (by simp)
  · rw [if_neg hg] at h
    have hv := (Option.some.injEq _ _).mp h
    rcases Bool.or_eq_false_iff.mp (Bool.not_eq_true _ |>.mp hg) with ⟨h1, h2⟩
    subst hv
    exact ⟨rfl, rfl, rfl, h1, h2⟩

theorem type_of_mem_emailVars {code : List Char} {roleName : Option (List Char)} {v : EnvVar}
    (hv : v ∈ (emailMatches code).filterMap (matchToVar roleName)) : v.type = .email := by
  rcases List.mem_filterMap.mp hv with ⟨m, hm, hmv⟩
  rcases List.mem_map.mp hm with ⟨p, _, rfl⟩
  exact (matchToVar_eq_some hmv).1

theorem type_of_mem_passwordVars {code : List Char} {roleName : Option (List Char)} {v : EnvVar}
    (hv : v ∈ (passwordMatches code).filterMap (matchToVar roleName)) : v.type = .password := by
  rcases List.mem_filterMap.mp hv with ⟨m, hm, hmv⟩
  rcases List.mem_map.mp hm with ⟨p, _, rfl⟩
  exact (matchToVar_eq_some hmv).1

/-- C2 (amended): the output of `detectEnvVars` is all email-kind credentials
followed by all password-kind credentials — the email pattern is exhausted
over the whole transcript before the password pattern runs, so order is
preserved within each kind only, not across kinds. -/
theorem detectEnvVars_email_block_first (code : List Char) (roleName : Option (List Char)) :
    detectEnvVars code roleName =
      (detectEnvVars code roleName).filter (fun v => decide (v.type = .email)) ++
        (detectEnvVars code roleName).filter (fun v => decide (v.type = .password)) := by
  have hsub : List.Sublist (detectEnvVars code roleName)
      ((emailMatches code).filterMap (matchToVar roleName) ++
        (passwordMatches code).filterMap (matchToVar roleName)) := by
    unfold detectEnvVars deduplicateEnvVars allMatches
    rw [List.filterMap_append]
    exact dedupAux_sublist _ [] []
  rcases List.sublist_append_iff.mp hsub with ⟨l1, l2, heq, h1, h2⟩
  have h1t : ∀ v ∈ l1, v.type = EnvVarType.email :=
    fun v hv => type_of_mem_emailVars (h1.subset hv)
  have h2t : ∀ v ∈ l2, v.type = EnvVarType.password :=
    fun v hv => type_of_mem_passwordVars (h2.subset hv)
  rw [heq, List.filter_append, List.filter_append]
  have e1 : l1.filter (fun v => decide (v.type = EnvVarType.email)) = l1 :=
    List.filter_eq_self.mpr (fun v hv => by simp [h1t v hv])
  have e2 : l2.filter (fun v => decide (v.type = EnvVarType.email)) = [] :=
    List.filter_eq_nil_iff.mpr (fun v hv => by simp [h2t v hv])
  have p1 : l1.filter (fun v => decide (v.type = EnvVarType.password)) = [] :=
    List.filter_eq_nil_iff.mpr (fun v hv => by simp [h1t v hv])
  have p2 : l2.filter (fun v => decide (v.type = EnvVarType.password)) = l2 :=
    List.filter_eq_self.mpr (fun v hv => by simp [h2t v hv])
  rw [e1, e2, p1, p2, List.append_nil, List.nil_append]

/-- C10 counterexample: with supplied role `admin`, the detector emits a
variable named `QA_ADMIN_EMAIL` from a field context (`Email`) that does not
contain `admin` — the name comes from the role prefix, not from the admin
override. -/
theorem detect_admin_role_cex :
    detectEnvVars plainEmailStmt (some "admin".data) = [adminVar] ∧
    allMatches plainEmailStmt = [⟨"Email".data, "alice@corp.io".data, .email⟩] ∧
    containsAdmin "Email".data = false := by decide

theorem isCommonTestData_of_containsAdmin {s : List Char}
    (h : containsAdmin s = true) : isCommonTestData s = true := by
  unfold isCommonTestData
  rw [List.any_eq_true]
  exact ⟨"admin".data, by simp [commonTestData], h⟩

theorem qa_name_prefix_inj {X Y s : List Char}
    (h : "QA_".data ++ X ++ s = "QA_".data ++ Y ++ s) : X = Y := by
  rw [List.append_assoc, List.append_assoc] at h
  exact List.append_cancel_right (List.append_cancel_left h)

theorem email_name_ne_admin_password {X : List Char}
    (h : "QA_".data ++ X ++ "_EMAIL".data = "QA_ADMIN_PASSWORD".data) : False := by
  have hs : List.IsSuffix "_EMAIL".data "QA_ADMIN_PASSWORD".data :=
    h ▸ List.suffix_append ("QA_".data ++ X) "_EMAIL".data
  revert hs; decide

theorem password_name_ne_admin_email {X : List Char}
    (h : "QA_".data ++ X ++ "_PASSWORD".data = "QA_ADMIN_EMAIL".data) : False := by
  have hs : List.IsSuffix "_PASSWORD".data "QA_ADMIN_EMAIL".data :=
    h ▸ List.suffix_append ("QA_".data ++ X) "_PASSWORD".data
  revert hs; decide

theorem generateEnvVarName_no_admin {value fc : List Char} {roleName : Option (List Char)}
    (hfc : containsAdmin fc = false) (hval : containsAdmin value = false)
    (type : EnvVarType) :
    generateEnvVarName value type (some fc) roleName =
      "QA_".data ++
        (match roleName with | some r => upperStr r | none => "USER".data) ++
        (match type with | .email => "_EMAIL".data | .password => "_PASSWORD".data) := by
  cases type <;> simp [generateEnvVarName, hfc, hval]

/-- C10 (amended): provided the supplied role name does not itself uppercase
to `ADMIN` (with no role the prefix is `USER`), every variable emitted by
`detectEnvVars` with name `QA_ADMIN_EMAIL` or `QA_ADMIN_PASSWORD` stems from
a match whose field context contains `admin` case-insensitively; the
value-based admin override of the namer is unreachable from detection,
because a value containing `admin` is discarded as common placeholder
data. -/
theorem detect_admin_name_needs_admin_field (code : List Char)
    (roleName : Option (List Char)) (v : EnvVar)
    (hrole : ∀ r, roleName = some r → upperStr r ≠ "ADMIN".data)
    (hv : v ∈ detectEnvVars code roleName)
    (hname : v.name = "QA_ADMIN_EMAIL".data ∨ v.name = "QA_ADMIN_PASSWORD".data) :
    ∃ m ∈ allMatches code, matchToVar roleName m = some v ∧
      containsAdmin m.fieldContext = true ∧ containsAdmin v.value = false := by
  have hv' : v ∈ (allMatches code).filterMap (matchToVar roleName) :=
    (dedupAux_sublist _ [] []).subset hv
  rcases List.mem_filterMap.mp hv' with ⟨m, hm, hmv⟩
  obtain ⟨mfc, mval, mty⟩ := m
  rcases matchToVar_eq_some hmv with ⟨htype, hval, hnm, _, hcommon⟩
  have hvaladmin : containsAdmin mval = false := by
    rcases Bool.eq_false_or_eq_true (containsAdmin mval) with h | h
    · exact absurd (isCommonTestData_of_containsAdmin h) (by simp [hcommon])
    · exact h
  refine ⟨⟨mfc, mval, mty⟩, hm, hmv, ?_, hval ▸ hvaladmin⟩
  rcases Bool.eq_false_or_eq_true (containsAdmin mfc) with hfc | hfc
  · exact hfc
  exfalso
  rw [show (⟨mfc, mval, mty⟩ : FillMatch).value = mval from rfl,
    show (⟨mfc, mval, mty⟩ : FillMatch).type = mty from rfl,
    show (⟨mfc, mval, mty⟩ : FillMatch).fieldContext = mfc from rfl] at hnm
  rw [generateEnvVarName_no_admin hfc hvaladmin mty] at hnm
  rw [hnm] at hname
  cases mty with
  | email =>
    cases roleName with
    | none =>
      have hplain : ("QA_".data ++ "USER".data ++ "_EMAIL".data = "QA_ADMIN_EMAIL".data) ∨
          ("QA_".data ++ "USER".data ++ "_EMAIL".data = "QA_ADMIN_PASSWORD".data) := hname
      revert hplain; decide
    | some r =>
      have hplain : ("QA_".data ++ upperStr r ++ "_EMAIL".data = "QA_ADMIN_EMAIL".data) ∨
          ("QA_".data ++ upperStr r ++ "_EMAIL".data = "QA_ADMIN_PASSWORD".data) := hname
      rcases hplain with h | h
      · refine hrole r rfl (qa_name_prefix_inj (s := "_EMAIL".data) (h.trans ?_))
        decide
      · exact email_name_ne_admin_password h
  | password =>
    cases roleName with
    | none =>
      have hplain : ("QA_".data ++ "USER".data ++ "_PASSWORD".data = "QA_ADMIN_EMAIL".data) ∨
          ("QA_".data ++ "USER".data ++ "_PASSWORD".data = "QA_ADMIN_PASSWORD".data) := hname
      revert hplain; decide
    | some r =>
      have hplain : ("QA_".data ++ upperStr r ++ "_PASSWORD".data = "QA_ADMIN_EMAIL".data) ∨
          ("QA_".data ++ upperStr r ++ "_PASSWORD".data = "QA_ADMIN_PASSWORD".data) := hname
      rcases hplain with h | h
      · exact password_name_ne_admin_email h
      · refine hrole r rfl (qa_name_prefix_inj (s := "_PASSWORD".data) (h.trans ?_))
        decide

/-- C10 witness: on the `Admin Email` transcript with role `user`, the
detected `QA_ADMIN_EMAIL` variable indeed stems from a match whose field
context contains `admin`. -/
theorem detect_admin_name_needs_admin_field_witness :
    ∃ m ∈ allMatches adminFieldStmt, matchToVar (some "user".data) m = some adminVar ∧
      containsAdmin m.fieldContext = true ∧ containsAdmin adminVar.value = false :=
  detect_admin_name_needs_admin_field adminFieldStmt (some "user".data) adminVar
    (fun r hr => by cases hr; decide) (by decide) (Or.inl (by decide))

/-! ### Claim theorems: the redaction rewriter -/

/-- C4 counterexample: value `x` is quote-free, `[xVar]` is de-duplicated, and
both occurrences of `x` in `'x'x'` are quote-delimited (they share the middle
quote), yet after rewriting the environment reference appears once, not once
per occurrence. -/
theorem replaceWithEnvVars_overlap_cex :
    deduplicateEnvVars [xVar] = [xVar] ∧
    (∀ c ∈ xVar.value, isQuoteChar c = false) ∧
    countOcc xVar.value overlapText = 2 ∧
    countQuotedOcc xVar.value overlapText = 2 ∧
    replaceWithEnvVars overlapText [xVar] =
      "process.env.QA_USER_PASSWORDx\x27".data ∧
    countOcc ("process.env.".data ++ xVar.name) (replaceWithEnvVars overlapText [xVar]) =
      1 := by decide

theorem replaceQuoted_zero (v repl l : List Char) : replaceQuoted v repl 0 l = l := rfl

theorem replaceQuoted_succ_nil (v repl : List Char) (fuel : Nat) :
    replaceQuoted v repl (fuel + 1) [] = [] := rfl

theorem replaceQuoted_succ_cons (v repl : List Char) (fuel : Nat) (c : Char)
    (rest : List Char) :
    replaceQuoted v repl (fuel + 1) (c :: rest) =
      match matchQuoted v (c :: rest) with
      | some after => repl ++ replaceQuoted v repl fuel after
      | none => c :: replaceQuoted v repl fuel rest := rfl

theorem hasQuotedOcc_cons (v : List Char) (c : Char) (rest : List Char) :
    hasQuotedOcc v (c :: rest) =
      ((matchQuoted v (c :: rest)).isSome || hasQuotedOcc v rest) := rfl

theorem matchQuoted_nil (v : List Char) : matchQuoted v [] = none := rfl

theorem matchQuoted_cons (v : List Char) (c : Char) (rest : List Char) :
    matchQuoted v (c :: rest) =
      if isQuoteChar c = true then
        if v.isPrefixOf rest = true then
          match rest.drop v.length with
          | c2 :: rest2 => if c2 = c then some rest2 else none
          | [] => none
        else none
      else none := rfl

theorem matchQuoted_some_length {v l after : List Char}
    (h : matchQuoted v l = some after) : after.length < l.length := by
  cases l with
  | nil => rw [matchQuoted_nil] at h; exact absurd h (by simp)
  | cons c rest =>
    rw [matchQuoted_cons] at h
    by_cases hq : isQuoteChar c = true
    · rw [if_pos hq] at h
      by_cases hp : v.isPrefixOf rest = true
      · rw [if_pos hp] at h
        cases hd : rest.drop v.length with
        | nil => rw [hd] at h; exact absurd h (by simp)
        | cons c2 rest2 =>
          rw [hd] at h
          have h' : (if c2 = c then some rest2 else none) = some after := h
          by_cases hc : c2 = c
          · rw [if_pos hc] at h'
            have hafter : rest2 = after := by injection h'
            subst hafter
            have hlen : rest.length - v.length = rest2.length + 1 := by
              have := congrArg List.length hd
              simpa [List.length_drop] using this
            simp only [List.length_cons]
            omega
          · rw [if_neg hc] at h'; exact absurd h' (by simp)
      · rw [if_neg hp] at h; exact absurd h (by simp)
    · rw [if_neg hq] at h; exact absurd h (by simp)

theorem replaceQuoted_fuel {v repl : List Char} :
    ∀ (f1 f2 : Nat) (l : List Char), l.length ≤ f1 → l.length ≤ f2 →
      replaceQuoted v repl f1 l = replaceQuoted v repl f2 l := by
  intro f1
  induction f1 with
  | zero =>
    intro f2 l h1 _
    have hl : l = [] := List.eq_nil_of_length_eq_zero (Nat.le_zero.mp h1)
    subst hl
    cases f2 <;> rfl
  | succ f1 ih =>
    intro f2 l h1 h2
    cases l with
    | nil => cases f2 <;> rfl
    | cons c rest =>
      cases f2 with
      | zero => simp at h2
      | succ f2 =>
        rw [replaceQuoted_succ_cons, replaceQuoted_succ_cons]
        cases hm : matchQuoted v (c :: rest) with
        | some after =>
          have hlen := matchQuoted_some_length hm
          simp only [List.length_cons] at h1 h2 hlen
          refine congrArg (repl ++ ·) (ih f2 after ?_ ?_) <;> omega
        | none =>
          simp only [List.length_cons] at h1 h2
          refine congrArg (c :: ·) (ih f2 rest ?_ ?_) <;> omega

theorem replaceQuoted_no_occ {v repl : List Char} :
    ∀ (fuel : Nat) (l : List Char), hasQuotedOcc v l = false →
      replaceQuoted v repl fuel l = l := by
  intro fuel
  induction fuel with
  | zero => intro l _; rfl
  | succ fuel ih =>
    intro l h
    cases l with
    | nil => rfl
    | cons c rest =>
      rw [hasQuotedOcc_cons] at h
      rcases Bool.or_eq_false_iff.mp h with ⟨h1, h2⟩
      have hm : matchQuoted v (c :: rest) = none := by
        cases hm : matchQuoted v (c :: rest) with
        | none => rfl
        | some a => rw [hm] at h1; exact absurd h1 (by simp)
      rw [replaceQuoted_succ_cons]
      simp only [hm]
      exact congrArg (c :: ·) (ih rest h2)

theorem matchQuoted_self (v b : List Char) (q : Char) (hq : isQuoteChar q = true) :
    matchQuoted v (q :: (v ++ q :: b)) = some b := by
  rw [matchQuoted_cons, if_pos hq]
  have hp : v.isPrefixOf (v ++ q :: b) = true :=
    List.isPrefixOf_iff_prefix.mpr (List.prefix_append v (q :: b))
  rw [if_pos hp, List.drop_left]
  simp

theorem replaceQuoted_first_occ {v repl : List Char} (q : Char)
    (hq : isQuoteChar q = true) :
    ∀ (a b : List Char),
      (∀ i, i < a.length →
        matchQuoted v ((a ++ q :: (v ++ q :: b)).drop i) = none) →
      replaceQuoted v repl (a ++ q :: (v ++ q :: b)).length (a ++ q :: (v ++ q :: b)) =
        a ++ repl ++ replaceQuoted v repl b.length b := by
  intro a
  induction a with
  | nil =>
    intro b _
    rw [List.nil_append, List.length_cons, replaceQuoted_succ_cons,
      matchQuoted_self v b q hq]
    simp only [List.nil_append]
    refine congrArg (repl ++ ·) (replaceQuoted_fuel _ _ b ?_ ?_)
    · simp only [List.length_append, List.length_cons]; omega
    · exact Nat.le_refl _
  | cons c a ih =>
    intro b hpre
    have h0 := hpre 0 (by simp)
    rw [List.drop_zero, List.cons_append] at h0
    rw [List.cons_append, List.length_cons, replaceQuoted_succ_cons]
    simp only [h0]
    have hshift : ∀ i, i < a.length →
        matchQuoted v ((a ++ q :: (v ++ q :: b)).drop i) = none := by
      intro i hi
      have := hpre (i + 1) (by simpa using Nat.succ_lt_succ hi)
      rwa [List.cons_append, List.drop_succ_cons] at this
    rw [List.cons_append, List.cons_append]
    exact congrArg (c :: ·) (ih b hshift)

/-- C4 (amended): `replaceWithEnvVars` rewrites, per variable, left to right
and non-overlapping: a text with no quote-delimited occurrence of the value
is returned unchanged, and a text whose first quote-delimited occurrence of
the value is the displayed one (no occurrence starts in `a`) rewrites to `a`,
then the `process.env` reference, then the rewrite of the remainder after the
closing quote — so the reference appears once per non-overlapping occurrence,
an occurrence sharing a quote with a replaced one being skipped. -/
theorem replaceWithEnvVars_leftmost (v : EnvVar) :
    (∀ code : List Char, hasQuotedOcc v.value code = false →
      replaceWithEnvVars code [v] = code) ∧
    (∀ (a b : List Char) (q : Char), isQuoteChar q = true →
      (∀ i, i < a.length →
        matchQuoted v.value ((a ++ q :: (v.value ++ q :: b)).drop i) = none) →
      replaceWithEnvVars (a ++ q :: (v.value ++ q :: b)) [v] =
        a ++ ("process.env.".data ++ v.name) ++ replaceWithEnvVars b [v]) := by
  constructor
  · intro code h
    exact replaceQuoted_no_occ code.length code h
  · intro a b q hq hpre
    exact replaceQuoted_first_occ q hq a b hpre

/-- C4 witness: a concrete leftmost replacement step for `xVar` on
`ab'x';`. -/
theorem replaceWithEnvVars_leftmost_witness :
    isQuoteChar '\x27' = true ∧
    replaceWithEnvVars ("ab".data ++ '\x27' :: ("x".data ++ '\x27' :: ";".data)) [xVar] =
      "ab".data ++ ("process.env.".data ++ xVar.name) ++
        replaceWithEnvVars ";".data [xVar] :=
  ⟨by decide,
   (replaceWithEnvVars_leftmost xVar).2 "ab".data ";".data '\x27' (by decide)
     (by decide)⟩

end QADirector
